import Mathlib

/-!
Verification of the registry introspection queries of `salt/modules/sysmod.py`.

The queries are embedded shallowly: a registry is an association list from
qualified name to entry (Python dict in insertion order), the glob engine
mirrors `fnmatch.translate` followed by the compiled regular expression
(including the compile failure on an inverted character range), and each
query function mirrors the corresponding Python function body, taking the
ambient registry as an explicit argument.
-/

namespace Sysmod

/-- One registry record: the function docstring and, for state modules, the
module-level docstring slot. `moduleDoc = none` models a callable without a
`__globals__` attribute; `moduleDoc = some v` models one whose
`__globals__` dictionary carries `v` as the possibly-null module docstring. -/
structure Entry where
  doc : Option String
  moduleDoc : Option (Option String)
deriving Repr

/-- A registry is a flat mapping from qualified name to entry, modelled as an
association list in dict insertion order. -/
abbrev Registry := List (String × Entry)

/-- The key list of a registry, in iteration order. -/
def keys (reg : Registry) : List String := reg.map Prod.fst

/-- The aggregated documentation mapping built by the doc queries. -/
abbrev Docs := List (String × Option String)

/-- Python dict assignment: update in place when the key exists, else append. -/
def dictSet {α : Type} : List (String × α) → String → α → List (String × α)
  | [], k, v => [(k, v)]
  | (k1, v1) :: d, k, v => if k1 == k then (k1, v) :: d else (k1, v1) :: dictSet d k v

/-- Python `key in dict`. -/
def dictMem {α : Type} (d : List (String × α)) (k : String) : Bool :=
  d.any (fun kv => kv.1 == k)

/-- Python `dict[key]`, as an option. -/
def dictGet {α : Type} : List (String × α) → String → Option α
  | [], _ => none
  | (k1, v1) :: d, k => if k1 == k then some v1 else dictGet d k

/-- Python `set.add` on a list model of a set. -/
def setAdd (s : List String) (x : String) : List String :=
  if x ∈ s then s else s ++ [x]

/-- Python string comparison: lexicographic over code points. -/
def strLt (a b : String) : Bool := decide (a.data < b.data)

/-- Insert a string into an ascending list; helper of `pysort`. -/
def insort (x : String) : List String → List String
  | [] => [x]
  | y :: ys => if strLt x y then x :: y :: ys else y :: insort x ys

/-- Python `sorted` on strings: ascending lexicographic sort. -/
def pysort (l : List String) : List String := l.foldr insort []

/-- Python `s.startswith(t)`. -/
def startswith (s t : String) : Bool := t.data.isPrefixOf s.data

/-- Python `s.endswith(t)`. -/
def endswith (s t : String) : Bool := t.data.isSuffixOf s.data

/-- The dotted target of a plain pattern, from the source:
`module + '.' if not module.endswith('.') else module`. -/
def dotTarget (module : String) : String :=
  if endswith module "." then module else module ++ "."

/-- Python `'*' in module`: the only glob-detection test the source performs. -/
def containsStar (module : String) : Bool := module.data.contains '*'

/-- Python `s.split('.')` on the character list. -/
def splitDotChars : List Char → List (List Char)
  | [] => [[]]
  | c :: rest =>
    if c = '.' then [] :: splitDotChars rest
    else
      match splitDotChars rest with
      | [] => [[c]]
      | p :: ps => (c :: p) :: ps

/-- Python `s.split('.')`. -/
def splitDot (s : String) : List String := (splitDotChars s.data).map String.mk

/-- Python `s.split('.')[0]`: the text before the first dot. -/
def firstSeg (s : String) : String :=
  match splitDot s with
  | [] => ""
  | c :: _ => c

/-- Whether a qualified name contains a dot. -/
def hasDot (s : String) : Bool := s.data.contains '.'

/-- The shared body of the list-modules loops: skip names with fewer than two
dot-separated components, otherwise add the leading component to the set. -/
def modAdd (mods : List String) (k : String) : List String :=
  if (splitDot k).length < 2 then mods else setAdd mods (firstSeg k)

/-- One element of a translated character class. -/
inductive ClsItem where
  | single (c : Char)
  | range (a b : Char)
deriving Repr, DecidableEq

/-- One token of a translated glob pattern, mirroring `fnmatch.translate`. -/
inductive GlobTok where
  | star
  | anyChar
  | lit (c : Char)
  | cls (neg : Bool) (items : List ClsItem)
deriving Repr, DecidableEq

/-- Index of the first closing bracket, as scanned by `fnmatch.translate`
when it looks for the end of a character class. -/
def closeIdx : List Char → Option Nat
  | [] => none
  | ']' :: _ => some 0
  | _ :: rest => (closeIdx rest).map (· + 1)

/-- How many leading characters of a class body `fnmatch.translate` skips
before scanning for the closing bracket: a leading `!` and a leading `]`. -/
def classSkip (cs : List Char) : Nat :=
  match cs with
  | '!' :: ']' :: _ => 2
  | '!' :: _ => 1
  | ']' :: _ => 1
  | _ => 0

/-- Parse a character class body into items, as the compiled regular
expression reads it: `a-b` between two characters is a range (an inverted
range is rejected by `re.compile` as a bad character range), a dash at
either end is a literal, anything else is a literal character. -/
def parseItems : List Char → Option (List ClsItem)
  | [] => some []
  | [c] => some [ClsItem.single c]
  | [c, '-'] => some [ClsItem.single c, ClsItem.single '-']
  | c :: '-' :: b :: rest =>
    if c ≤ b then (parseItems rest).map (fun is => ClsItem.range c b :: is)
    else none
  | c :: rest => (parseItems rest).map (fun is => ClsItem.single c :: is)

/-- Fueled worker of `translateChars`. Every step consumes at least one
input character, so fuel equal to the input length is always sufficient;
the fuel only makes the recursion structural. -/
def translateGo : Nat → List Char → Option (List GlobTok)
  | _, [] => some []
  | 0, _ :: _ => none
  | fuel + 1, '*' :: rest => (translateGo fuel rest).map (fun ts => GlobTok.star :: ts)
  | fuel + 1, '?' :: rest => (translateGo fuel rest).map (fun ts => GlobTok.anyChar :: ts)
  | fuel + 1, '[' :: rest =>
    match closeIdx (rest.drop (classSkip rest)) with
    | none => (translateGo fuel rest).map (fun ts => GlobTok.lit '[' :: ts)
    | some j =>
      let stuff := rest.take (classSkip rest + j)
      let rest2 := rest.drop (classSkip rest + j + 1)
      let pr : Bool × List Char :=
        match stuff with
        | '!' :: t => (true, t)
        | _ => (false, stuff)
      match parseItems pr.2 with
      | none => none
      | some items => (translateGo fuel rest2).map (fun ts => GlobTok.cls pr.1 items :: ts)
  | fuel + 1, c :: rest => (translateGo fuel rest).map (fun ts => GlobTok.lit c :: ts)

/-- `fnmatch.translate` followed by `re.compile`: compile a glob pattern into
tokens, or fail where the compiled expression would be rejected (inverted
character range). An unmatched opening bracket is a literal `[`. -/
def translateChars (cs : List Char) : Option (List GlobTok) := translateGo cs.length cs

/-- Compile a glob pattern string. -/
def translate (p : String) : Option (List GlobTok) := translateChars p.data

/-- Whether one class item matches a character. -/
def itemMatch (it : ClsItem) (c : Char) : Bool :=
  match it with
  | ClsItem.single a => a == c
  | ClsItem.range a b => a ≤ c && c ≤ b

/-- Whether a character class matches a character. -/
def clsMatch (neg : Bool) (items : List ClsItem) (c : Char) : Bool :=
  (items.any (fun it => itemMatch it c)) != neg

/-- Full-string matching of a translated glob pattern, the behavior of the
compiled anchored regular expression in dotall mode: a star matches any
(possibly empty) sequence of characters, expressed as matching the rest of
the pattern against some suffix of the string. -/
def tokMatch : List GlobTok → List Char → Bool
  | [], s => s.isEmpty
  | GlobTok.star :: ts, s => (s.tails).any (fun suf => tokMatch ts suf)
  | GlobTok.anyChar :: ts, s =>
    match s with
    | [] => false
    | _ :: s2 => tokMatch ts s2
  | GlobTok.lit a :: ts, s =>
    match s with
    | [] => false
    | c :: s2 => a == c && tokMatch ts s2
  | GlobTok.cls neg items :: ts, s =>
    match s with
    | [] => false
    | c :: s2 => clsMatch neg items c && tokMatch ts s2

/-- Python `fnmatch.filter` against a compiled pattern. -/
def fnmatchFilter (ks : List String) (toks : List GlobTok) : List String :=
  ks.filter (fun k => tokMatch toks k.data)

/-- Modelled from the spec: the external doc-text normalizer
(`salt.utils.doc.strip_rst`, whose source is not part of this repository's
sources) is a pass-through boundary returning a display-ready form of the
aggregated mapping; it is modelled as the identity on the mapping. -/
def strip_rst (docs : Docs) : Docs := docs

/-- One pattern step of `sys.doc` (the loop body over `args`). -/
def docOne (reg : Registry) (docs : Docs) (module : String) : Option Docs :=
  if containsStar module then
    match translate module with
    | none => none
    | some toks =>
      some ((reg.filter (fun kv => tokMatch toks kv.1.data)).foldl
        (fun d kv => dictSet d kv.1 kv.2.doc) docs)
  else
    let target := if module = "" then "" else dotTarget module
    some (reg.foldl
      (fun d kv =>
        if kv.1 == module || startswith kv.1 target then dictSet d kv.1 kv.2.doc else d)
      docs)

/-- `sys.doc`: docstrings for all or selected execution functions. -/
def doc (reg : Registry) (args : List String) : Option Docs :=
  if args.isEmpty then
    some (strip_rst (reg.foldl (fun d kv => dictSet d kv.1 kv.2.doc) []))
  else
    (args.foldlM (docOne reg) []).map strip_rst

/-- One pattern step of `sys.state_doc`. In the glob branch the module name
is derived from each matched function and the module-level doc is written
unconditionally; in the plain branch it is derived from the pattern and
written only when the module key is absent. -/
def state_docOne (reg : Registry) (docs : Docs) (module : String) : Option Docs :=
  if containsStar module then
    match translate module with
    | none => none
    | some toks =>
      some ((reg.filter (fun kv => tokMatch toks kv.1.data)).foldl
        (fun d kv =>
          let state := firstSeg kv.1
          let d2 := kv.2.moduleDoc.elim d (fun md => dictSet d state md)
          dictSet d2 kv.1 kv.2.doc)
        docs)
  else
    let target := if module = "" then "" else dotTarget module
    some (reg.foldl
      (fun d kv =>
        if kv.1 == module || startswith kv.1 target then
          let state := firstSeg module
          let d2 :=
            if dictMem d state then d
            else kv.2.moduleDoc.elim d (fun md => dictSet d state md)
          dictSet d2 kv.1 kv.2.doc
        else d)
      docs)

/-- `sys.state_doc`: docstrings for all or selected state functions, with
module-level docstrings recorded under the bare module name. -/
def state_doc (reg : Registry) (args : List String) : Option Docs :=
  if args.isEmpty then
    some (strip_rst (reg.foldl
      (fun d kv =>
        let state := firstSeg kv.1
        let d2 :=
          if dictMem d state then d
          else kv.2.moduleDoc.elim d (fun md => dictSet d state md)
        dictSet d2 kv.1 kv.2.doc)
      []))
  else
    (args.foldlM (state_docOne reg) []).map strip_rst

/-- `sys.runner_doc`; its body is the same loop as `sys.doc`, over the
runner registry. -/
def runner_doc (reg : Registry) (args : List String) : Option Docs :=
  if args.isEmpty then
    some (strip_rst (reg.foldl (fun d kv => dictSet d kv.1 kv.2.doc) []))
  else
    (args.foldlM (docOne reg) []).map strip_rst

/-- One pattern step of `sys.returner_doc`. Note its glob branch does not
call fnmatch: it keeps `target_mod = module` and runs the same
equality-or-startswith loop on the raw pattern. -/
def returner_docOne (reg : Registry) (docs : Docs) (module : String) : Docs :=
  if containsStar module then
    reg.foldl
      (fun d kv =>
        if kv.1 == module || startswith kv.1 module then dictSet d kv.1 kv.2.doc else d)
      docs
  else
    let target := if module = "" then "" else dotTarget module
    reg.foldl
      (fun d kv =>
        if kv.1 == module || startswith kv.1 target then dictSet d kv.1 kv.2.doc else d)
      docs

/-- `sys.returner_doc`. -/
def returner_doc (reg : Registry) (args : List String) : Docs :=
  if args.isEmpty then
    strip_rst (reg.foldl (fun d kv => dictSet d kv.1 kv.2.doc) [])
  else
    strip_rst (args.foldl (returner_docOne reg) [])

/-- One pattern step of `sys.renderer_doc`. A pattern without a star applies
no filter at all: every key is recorded. -/
def renderer_docOne (reg : Registry) (docs : Docs) (module : String) : Option Docs :=
  if containsStar module then
    match translate module with
    | none => none
    | some toks =>
      some ((reg.filter (fun kv => tokMatch toks kv.1.data)).foldl
        (fun d kv => dictSet d kv.1 kv.2.doc) docs)
  else
    some (reg.foldl (fun d kv => dictSet d kv.1 kv.2.doc) docs)

/-- `sys.renderer_doc`. -/
def renderer_doc (reg : Registry) (args : List String) : Option Docs :=
  if args.isEmpty then
    some (strip_rst (reg.foldl (fun d kv => dictSet d kv.1 kv.2.doc) []))
  else
    (args.foldlM (renderer_docOne reg) []).map strip_rst

/-- One pattern step of `sys.list_functions`: fnmatch for starred patterns,
otherwise a plain startswith test against the dot-normalized pattern
(no equality branch). -/
def list_functionsOne (reg : Registry) (names : List String) (module : String) :
    Option (List String) :=
  if containsStar module then
    match translate module with
    | none => none
    | some toks => some ((fnmatchFilter (keys reg) toks).foldl setAdd names)
  else
    let m := if module = "" then module else dotTarget module
    some ((keys reg).foldl
      (fun ns k => if startswith k m then setAdd ns k else ns) names)

/-- `sys.list_functions`. -/
def list_functions (reg : Registry) (args : List String) : Option (List String) :=
  if args.isEmpty then some (pysort (keys reg))
  else (args.foldlM (list_functionsOne reg) []).map pysort

/-- `sys.list_state_functions`; same loop as `sys.list_functions`, over the
state registry. -/
def list_state_functions (reg : Registry) (args : List String) : Option (List String) :=
  if args.isEmpty then some (pysort (keys reg))
  else (args.foldlM (list_functionsOne reg) []).map pysort

/-- `sys.list_runner_functions`; same loop as `sys.list_functions`, over the
runner registry. -/
def list_runner_functions (reg : Registry) (args : List String) : Option (List String) :=
  if args.isEmpty then some (pysort (keys reg))
  else (args.foldlM (list_functionsOne reg) []).map pysort

/-- One pattern step of `sys.list_returner_functions`. Both branches use a
plain startswith test; the glob branch tests against the raw pattern and
never calls fnmatch. -/
def list_returner_functionsOne (reg : Registry) (names : List String) (module : String) :
    List String :=
  if containsStar module then
    (keys reg).foldl (fun ns k => if startswith k module then setAdd ns k else ns) names
  else
    let m := if module = "" then module else dotTarget module
    (keys reg).foldl (fun ns k => if startswith k m then setAdd ns k else ns) names

/-- `sys.list_returner_functions`. -/
def list_returner_functions (reg : Registry) (args : List String) : List String :=
  if args.isEmpty then pysort (keys reg)
  else pysort (args.foldl (list_returner_functionsOne reg) [])

/-- One pattern step of `sys.list_modules`: every pattern goes through
fnmatch, then module names are derived from the matched names. -/
def list_modulesOne (reg : Registry) (mods : List String) (module : String) :
    Option (List String) :=
  match translate module with
  | none => none
  | some toks => some ((fnmatchFilter (keys reg) toks).foldl modAdd mods)

/-- `sys.list_modules`. -/
def list_modules (reg : Registry) (args : List String) : Option (List String) :=
  if args.isEmpty then some (pysort ((keys reg).foldl modAdd []))
  else (args.foldlM (list_modulesOne reg) []).map pysort

/-- `sys.list_state_modules`; same loop as `sys.list_modules`. -/
def list_state_modules (reg : Registry) (args : List String) : Option (List String) :=
  if args.isEmpty then some (pysort ((keys reg).foldl modAdd []))
  else (args.foldlM (list_modulesOne reg) []).map pysort

/-- `sys.list_runners`; same loop as `sys.list_modules`. -/
def list_runners (reg : Registry) (args : List String) : Option (List String) :=
  if args.isEmpty then some (pysort ((keys reg).foldl modAdd []))
  else (args.foldlM (list_modulesOne reg) []).map pysort

/-- `sys.list_returners`; same loop as `sys.list_modules`. -/
def list_returners (reg : Registry) (args : List String) : Option (List String) :=
  if args.isEmpty then some (pysort ((keys reg).foldl modAdd []))
  else (args.foldlM (list_modulesOne reg) []).map pysort

/-- One pattern step of `sys.list_renderers` (no module-name derivation). -/
def list_renderersOne (reg : Registry) (ren : List String) (module : String) :
    Option (List String) :=
  match translate module with
  | none => none
  | some toks => some ((fnmatchFilter (keys reg) toks).foldl setAdd ren)

/-- `sys.list_renderers`. -/
def list_renderers (reg : Registry) (args : List String) : Option (List String) :=
  if args.isEmpty then some (pysort ((keys reg).foldl setAdd []))
  else (args.foldlM (list_renderersOne reg) []).map pysort

/-- `sys.reload_modules`: the Python body is a bare `return True` (the real
work happens in the minion process before the call reaches this module). -/
def reload_modules : Bool := true

/-! Lemmas about the dict, set and sort primitives. -/

theorem mem_dictSet {α : Type} (d : List (String × α)) (k k1 : String) (v : α) :
    dictMem (dictSet d k v) k1 = true ↔ k1 = k ∨ dictMem d k1 = true := by
  induction d with
  | nil =>
    simp only [dictSet, dictMem, List.any_cons, List.any_nil, Bool.or_false,
      beq_iff_eq]
    constructor
    · intro hh
      exact Or.inl hh.symm
    · rintro (rfl | hh)
      · rfl
      · cases hh
  | cons kv d ih =>
    obtain ⟨k2, v2⟩ := kv
    by_cases h : k2 = k
    · subst h
      simp only [dictSet, beq_self_eq_true, if_true, dictMem, List.any_cons,
        beq_iff_eq, Bool.or_eq_true, decide_eq_true_eq]
      tauto
    · have step : dictSet ((k2, v2) :: d) k v = (k2, v2) :: dictSet d k v := by
        simp [dictSet, h]
      have expand : ∀ (e : List (String × α)) (w : String × α),
          dictMem (w :: e) k1 = true ↔ w.1 = k1 ∨ dictMem e k1 = true := by
        intro e w
        simp [dictMem]
      rw [step, expand, expand, ih]
      tauto

theorem get_dictSet_self {α : Type} (d : List (String × α)) (k : String) (v : α) :
    dictGet (dictSet d k v) k = some v := by
  induction d with
  | nil => simp [dictSet, dictGet]
  | cons kv d ih =>
    obtain ⟨k2, v2⟩ := kv
    by_cases h : k2 = k <;> simp [dictSet, dictGet, h, ih]

theorem get_dictSet_ne {α : Type} (d : List (String × α)) (k k1 : String) (v : α)
    (h : k1 ≠ k) : dictGet (dictSet d k v) k1 = dictGet d k1 := by
  have h1 : k ≠ k1 := fun hh => h hh.symm
  induction d with
  | nil => simp [dictSet, dictGet, h1]
  | cons kv d ih =>
    obtain ⟨k2, v2⟩ := kv
    by_cases h2 : k2 = k
    · subst h2
      simp [dictSet, dictGet, h1]
    · by_cases h3 : k2 = k1 <;> simp [dictSet, dictGet, h, h2, h3, ih]

theorem dictMem_eq_isSome {α : Type} (d : List (String × α)) (k : String) :
    dictMem d k = (dictGet d k).isSome := by
  induction d with
  | nil => simp [dictMem, dictGet]
  | cons kv d ih =>
    obtain ⟨k2, v2⟩ := kv
    by_cases h : k2 = k <;> simp [dictMem, dictGet, h, ← ih]

theorem mem_setAdd (s : List String) (x y : String) :
    y ∈ setAdd s x ↔ y = x ∨ y ∈ s := by
  by_cases h : x ∈ s
  · constructor
    · intro hy
      simp only [setAdd, if_pos h] at hy
      exact Or.inr hy
    · rintro (rfl | hy)
      · simp only [setAdd, if_pos h]
        exact h
      · simp only [setAdd, if_pos h]
        exact hy
  · simp [setAdd, h, or_comm]

theorem nodup_setAdd (s : List String) (x : String) (h : s.Nodup) :
    (setAdd s x).Nodup := by
  by_cases hx : x ∈ s
  · simpa [setAdd, hx] using h
  · simp [setAdd, hx, List.nodup_append, h]

theorem strLt_iff (a b : String) : strLt a b = true ↔ a < b := by
  simp only [strLt, decide_eq_true_eq]
  exact (String.lt_iff_toList_lt).symm

theorem mem_insort (x y : String) (l : List String) :
    y ∈ insort x l ↔ y = x ∨ y ∈ l := by
  induction l with
  | nil => simp [insort]
  | cons z zs ih =>
    by_cases h : strLt x z = true
    · simp [insort, h]
    · simp [insort, h, ih]
      tauto

theorem insort_perm (x : String) (l : List String) :
    List.Perm (insort x l) (x :: l) := by
  induction l with
  | nil => simp [insort]
  | cons z zs ih =>
    by_cases h : strLt x z = true
    · simp [insort, h]
    · simp only [insort, h, if_false]
      exact (ih.cons z).trans (List.Perm.swap x z zs)

theorem pysort_perm (l : List String) : List.Perm (pysort l) l := by
  induction l with
  | nil => simp [pysort]
  | cons x xs ih =>
    simp only [pysort, List.foldr_cons]
    exact (insort_perm x _).trans (ih.cons x)

theorem mem_pysort (x : String) (l : List String) : x ∈ pysort l ↔ x ∈ l :=
  (pysort_perm l).mem_iff

theorem sorted_insort (x : String) (l : List String)
    (h : l.Sorted (· ≤ ·)) : (insort x l).Sorted (· ≤ ·) := by
  induction l with
  | nil => simp [insort]
  | cons z zs ih =>
    rw [List.sorted_cons] at h
    by_cases hx : strLt x z = true
    · have hxz : x < z := (strLt_iff x z).mp hx
      simp only [insort, hx, if_true]
      rw [List.sorted_cons]
      refine ⟨?_, List.sorted_cons.mpr h⟩
      intro b hb
      rcases List.mem_cons.mp hb with rfl | hb
      · exact le_of_lt hxz
      · exact le_trans (le_of_lt hxz) (h.1 b hb)
    · have hzx : z ≤ x := le_of_not_lt (fun hh => hx ((strLt_iff x z).mpr hh))
      have hrw : insort x (z :: zs) = z :: insort x zs := by
        simp [insort, hx]
      rw [hrw, List.sorted_cons]
      refine ⟨?_, ih h.2⟩
      intro b hb
      rcases (mem_insort x b zs).mp hb with rfl | hb
      · exact hzx
      · exact h.1 b hb

theorem sorted_pysort (l : List String) : (pysort l).Sorted (· ≤ ·) := by
  induction l with
  | nil => simp [pysort]
  | cons x xs ih => exact sorted_insort x _ ih

theorem sortedLT_pysort (l : List String) (h : l.Nodup) :
    (pysort l).Sorted (· < ·) :=
  (sorted_pysort l).lt_of_le ((pysort_perm l).symm.nodup h)

/-! Lemmas about the aggregation folds. -/

theorem mem_foldl_docBody (cond : String × Entry → Bool)
    (extra : String × Entry → String → Bool) (mdUpd : Docs → String × Entry → Docs)
    (hmd : ∀ d kv k, dictMem (mdUpd d kv) k = true ↔ dictMem d k = true ∨ extra kv k = true) :
    ∀ (reg : Registry) (d : Docs) (k : String),
      dictMem (reg.foldl
        (fun d kv => if cond kv then dictSet (mdUpd d kv) kv.1 kv.2.doc else d) d) k = true
        ↔ dictMem d k = true ∨
            ∃ kv, kv ∈ reg ∧ cond kv = true ∧ (kv.1 = k ∨ extra kv k = true) := by
  intro reg
  induction reg with
  | nil =>
    intro d k
    simp
  | cons kv reg ih =>
    intro d k
    rw [List.foldl_cons]
    cases hcond : cond kv with
    | false =>
      rw [if_neg (by simp), ih]
      constructor
      · rintro (hd | ⟨kw, hm, hc, hrest⟩)
        · exact Or.inl hd
        · exact Or.inr ⟨kw, List.mem_cons_of_mem kv hm, hc, hrest⟩
      · rintro (hd | ⟨kw, hm, hc, hrest⟩)
        · exact Or.inl hd
        · rcases List.mem_cons.mp hm with rfl | hm2
          · rw [hcond] at hc
            cases hc
          · exact Or.inr ⟨kw, hm2, hc, hrest⟩
    | true =>
      rw [if_pos rfl, ih, mem_dictSet]
      constructor
      · rintro ((rfl | hd) | hrest)
        · exact Or.inr ⟨kv, List.mem_cons_self kv reg, hcond, Or.inl rfl⟩
        · rcases (hmd d kv k).mp hd with hd2 | hex
          · exact Or.inl hd2
          · exact Or.inr ⟨kv, List.mem_cons_self kv reg, hcond, Or.inr hex⟩
        · rcases hrest with ⟨kw, hm, hc, hr⟩
          exact Or.inr ⟨kw, List.mem_cons_of_mem kv hm, hc, hr⟩
      · rintro (hd | ⟨kw, hm, hc, hr⟩)
        · exact Or.inl (Or.inr ((hmd d kv k).mpr (Or.inl hd)))
        · rcases List.mem_cons.mp hm with rfl | hm2
          · rcases hr with rfl | hex
            · exact Or.inl (Or.inl rfl)
            · exact Or.inl (Or.inr ((hmd d kw k).mpr (Or.inr hex)))
          · exact Or.inr ⟨kw, hm2, hc, hr⟩

theorem mem_plain_fold (reg : Registry) (d : Docs) (module target k : String) :
    dictMem (reg.foldl
      (fun d kv =>
        if kv.1 == module || startswith kv.1 target then dictSet d kv.1 kv.2.doc else d) d) k
        = true
      ↔ dictMem d k = true ∨
          (k ∈ keys reg ∧ (k == module || startswith k target) = true) := by
  have h := mem_foldl_docBody (fun kv => kv.1 == module || startswith kv.1 target)
    (fun _ _ => false) (fun d _ => d) (by intro d kv k; simp) reg d k
  rw [h]
  constructor
  · rintro (hd | ⟨kw, hm, hc, rfl | hex⟩)
    · exact Or.inl hd
    · exact Or.inr ⟨List.mem_map.mpr ⟨kw, hm, rfl⟩, hc⟩
    · cases hex
  · rintro (hd | ⟨hm, hc⟩)
    · exact Or.inl hd
    · rcases List.mem_map.mp hm with ⟨kw, hkw, rfl⟩
      exact Or.inr ⟨kw, hkw, hc, Or.inl rfl⟩

theorem mem_all_fold (reg : Registry) (d : Docs) (k : String) :
    dictMem (reg.foldl (fun d kv => dictSet d kv.1 kv.2.doc) d) k = true
      ↔ dictMem d k = true ∨ k ∈ keys reg := by
  have h := mem_foldl_docBody (fun _ => true) (fun _ _ => false) (fun d _ => d)
    (by intro d kv k; simp) reg d k
  rw [show (reg.foldl (fun d kv => dictSet d kv.1 kv.2.doc) d)
      = (reg.foldl (fun d kv =>
          if (fun (_ : String × Entry) => true) kv then dictSet d kv.1 kv.2.doc else d) d)
      from by simp]
  rw [h]
  constructor
  · rintro (hd | ⟨kw, hm, _, rfl | hex⟩)
    · exact Or.inl hd
    · exact Or.inr (List.mem_map.mpr ⟨kw, hm, rfl⟩)
    · cases hex
  · rintro (hd | hm)
    · exact Or.inl hd
    · rcases List.mem_map.mp hm with ⟨kw, hkw, rfl⟩
      exact Or.inr ⟨kw, hkw, rfl, Or.inl rfl⟩

theorem mem_mdElim (d : Docs) (o : Option (Option String)) (st k : String) :
    dictMem (o.elim d (fun md => dictSet d st md)) k = true
      ↔ dictMem d k = true ∨ (o.isSome && (st == k)) = true := by
  cases o with
  | none => simp [Option.elim]
  | some md =>
    simp only [Option.elim, Option.isSome_some, Bool.true_and, mem_dictSet, beq_iff_eq]
    tauto

theorem mem_state_plain_fold (reg : Registry) (d : Docs) (module target k : String) :
    dictMem (reg.foldl
      (fun d kv =>
        if kv.1 == module || startswith kv.1 target then
          dictSet (if dictMem d (firstSeg module) then d
            else kv.2.moduleDoc.elim d (fun md => dictSet d (firstSeg module) md))
            kv.1 kv.2.doc
        else d) d) k = true
      ↔ dictMem d k = true ∨
          ∃ kv, kv ∈ reg ∧ (kv.1 == module || startswith kv.1 target) = true ∧
            (kv.1 = k ∨ (kv.2.moduleDoc.isSome = true ∧ firstSeg module = k)) := by
  have hmd : ∀ (d : Docs) (kv : String × Entry) (k : String),
      dictMem ((fun (d : Docs) (kv : String × Entry) =>
          if dictMem d (firstSeg module) then d
          else kv.2.moduleDoc.elim d (fun md => dictSet d (firstSeg module) md)) d kv) k = true
        ↔ dictMem d k = true ∨
            (kv.2.moduleDoc.isSome && (firstSeg module == k)) = true := by
    intro d kv k
    dsimp only
    by_cases hg : dictMem d (firstSeg module) = true
    · rw [if_pos hg]
      constructor
      · exact Or.inl
      · rintro (h | h)
        · exact h
        · have h2 : kv.2.moduleDoc.isSome = true ∧ (firstSeg module == k) = true := by
            simpa using h
          have h3 : firstSeg module = k := by simpa using h2.2
          rw [← h3]
          exact hg
    · rw [if_neg hg, mem_mdElim]
  have h := mem_foldl_docBody (fun kv => kv.1 == module || startswith kv.1 target)
    (fun kv k => kv.2.moduleDoc.isSome && (firstSeg module == k))
    (fun d kv =>
      if dictMem d (firstSeg module) then d
      else kv.2.moduleDoc.elim d (fun md => dictSet d (firstSeg module) md))
    hmd reg d k
  rw [h]
  constructor
  · rintro (hd | ⟨kw, hm, hc, hr⟩)
    · exact Or.inl hd
    · refine Or.inr ⟨kw, hm, hc, ?_⟩
      rcases hr with rfl | hx
      · exact Or.inl rfl
      · have hx2 : kw.2.moduleDoc.isSome = true ∧ (firstSeg module == k) = true := by
          simpa using hx
        exact Or.inr ⟨hx2.1, by simpa using hx2.2⟩
  · rintro (hd | ⟨kw, hm, hc, hr⟩)
    · exact Or.inl hd
    · refine Or.inr ⟨kw, hm, hc, ?_⟩
      rcases hr with rfl | ⟨h1, h2⟩
      · exact Or.inl rfl
      · exact Or.inr (by simp [h1, h2])

theorem mem_state_glob_fold (reg : Registry) (d : Docs) (k : String) :
    dictMem (reg.foldl
      (fun d kv =>
        dictSet (kv.2.moduleDoc.elim d (fun md => dictSet d (firstSeg kv.1) md))
          kv.1 kv.2.doc) d) k = true
      ↔ dictMem d k = true ∨
          ∃ kv, kv ∈ reg ∧
            (kv.1 = k ∨ (kv.2.moduleDoc.isSome = true ∧ firstSeg kv.1 = k)) := by
  have hmd : ∀ (d : Docs) (kv : String × Entry) (k : String),
      dictMem ((fun (d : Docs) (kv : String × Entry) =>
          kv.2.moduleDoc.elim d (fun md => dictSet d (firstSeg kv.1) md)) d kv) k = true
        ↔ dictMem d k = true ∨
            (kv.2.moduleDoc.isSome && (firstSeg kv.1 == k)) = true := by
    intro d kv k
    exact mem_mdElim d kv.2.moduleDoc (firstSeg kv.1) k
  have h := mem_foldl_docBody (fun _ => true)
    (fun kv k => kv.2.moduleDoc.isSome && (firstSeg kv.1 == k))
    (fun d kv => kv.2.moduleDoc.elim d (fun md => dictSet d (firstSeg kv.1) md))
    hmd reg d k
  rw [show (reg.foldl
      (fun d kv =>
        dictSet (kv.2.moduleDoc.elim d (fun md => dictSet d (firstSeg kv.1) md))
          kv.1 kv.2.doc) d)
    = (reg.foldl
      (fun d kv =>
        if (fun (_ : String × Entry) => true) kv then
          dictSet ((fun (d : Docs) (kv : String × Entry) =>
            kv.2.moduleDoc.elim d (fun md => dictSet d (firstSeg kv.1) md)) d kv)
            kv.1 kv.2.doc
        else d) d) from by simp]
  rw [h]
  constructor
  · rintro (hd | ⟨kw, hm, _, hr⟩)
    · exact Or.inl hd
    · refine Or.inr ⟨kw, hm, ?_⟩
      rcases hr with rfl | hx
      · exact Or.inl rfl
      · have hx2 : kw.2.moduleDoc.isSome = true ∧ (firstSeg kw.1 == k) = true := by
          simpa using hx
        exact Or.inr ⟨hx2.1, by simpa using hx2.2⟩
  · rintro (hd | ⟨kw, hm, hr⟩)
    · exact Or.inl hd
    · refine Or.inr ⟨kw, hm, rfl, ?_⟩
      rcases hr with rfl | ⟨h1, h2⟩
      · exact Or.inl rfl
      · exact Or.inr (by simp [h1, h2])

/-! Lemmas about the set-building folds of the list queries. -/

theorem mem_foldl_setAdd_cond (cond : String → Bool) :
    ∀ (l s : List String) (x : String),
      x ∈ l.foldl (fun ns k => if cond k then setAdd ns k else ns) s
        ↔ x ∈ s ∨ (x ∈ l ∧ cond x = true) := by
  intro l
  induction l with
  | nil => intro s x; simp
  | cons y l ih =>
    intro s x
    rw [List.foldl_cons]
    cases hc : cond y with
    | false =>
      rw [if_neg (by simp), ih]
      constructor
      · rintro (hs | ⟨hl, hx⟩)
        · exact Or.inl hs
        · exact Or.inr ⟨List.mem_cons_of_mem y hl, hx⟩
      · rintro (hs | ⟨hl, hx⟩)
        · exact Or.inl hs
        · rcases List.mem_cons.mp hl with rfl | hl2
          · rw [hc] at hx
            cases hx
          · exact Or.inr ⟨hl2, hx⟩
    | true =>
      rw [if_pos rfl, ih]
      constructor
      · rintro (hs | ⟨hl, hx⟩)
        · rcases (mem_setAdd s y x).mp hs with hxy | hs2
          · refine Or.inr ⟨?_, ?_⟩
            · rw [hxy]
              exact List.mem_cons_self y l
            · rw [hxy]
              exact hc
          · exact Or.inl hs2
        · exact Or.inr ⟨List.mem_cons_of_mem y hl, hx⟩
      · rintro (hs | ⟨hl, hx⟩)
        · exact Or.inl ((mem_setAdd s y x).mpr (Or.inr hs))
        · rcases List.mem_cons.mp hl with hxy | hl2
          · exact Or.inl ((mem_setAdd s y x).mpr (Or.inl hxy))
          · exact Or.inr ⟨hl2, hx⟩

theorem mem_foldl_setAdd (l s : List String) (x : String) :
    x ∈ l.foldl setAdd s ↔ x ∈ s ∨ x ∈ l := by
  have h := mem_foldl_setAdd_cond (fun _ => true) l s x
  rw [show l.foldl setAdd s
      = l.foldl (fun ns k => if (fun (_ : String) => true) k then setAdd ns k else ns) s
    from by simp]
  rw [h]
  tauto

theorem mem_foldl_modAdd :
    ∀ (l s : List String) (m : String),
      m ∈ l.foldl modAdd s
        ↔ m ∈ s ∨ ∃ n, n ∈ l ∧ ¬(splitDot n).length < 2 ∧ firstSeg n = m := by
  intro l
  induction l with
  | nil => intro s m; simp
  | cons y l ih =>
    intro s m
    rw [List.foldl_cons]
    by_cases hy : (splitDot y).length < 2
    · rw [show modAdd s y = s from by simp [modAdd, hy], ih]
      constructor
      · rintro (hs | ⟨n, hn, h1, h2⟩)
        · exact Or.inl hs
        · exact Or.inr ⟨n, List.mem_cons_of_mem y hn, h1, h2⟩
      · rintro (hs | ⟨n, hn, h1, h2⟩)
        · exact Or.inl hs
        · rcases List.mem_cons.mp hn with rfl | hn2
          · exact absurd hy h1
          · exact Or.inr ⟨n, hn2, h1, h2⟩
    · rw [show modAdd s y = setAdd s (firstSeg y) from by simp [modAdd, hy], ih]
      constructor
      · rintro (hs | ⟨n, hn, h1, h2⟩)
        · rcases (mem_setAdd s (firstSeg y) m).mp hs with rfl | hs2
          · exact Or.inr ⟨y, List.mem_cons_self y l, hy, rfl⟩
          · exact Or.inl hs2
        · exact Or.inr ⟨n, List.mem_cons_of_mem y hn, h1, h2⟩
      · rintro (hs | ⟨n, hn, h1, h2⟩)
        · exact Or.inl ((mem_setAdd s (firstSeg y) m).mpr (Or.inr hs))
        · rcases List.mem_cons.mp hn with rfl | hn2
          · exact Or.inl ((mem_setAdd s (firstSeg n) m).mpr (Or.inl h2.symm))
          · exact Or.inr ⟨n, hn2, h1, h2⟩

theorem nodup_foldl {α β : Type} (step : List α → β → List α)
    (hstep : ∀ s x, s.Nodup → (step s x).Nodup) :
    ∀ (l : List β) (s : List α), s.Nodup → (l.foldl step s).Nodup := by
  intro l
  induction l with
  | nil => intro s hs; simpa using hs
  | cons y l ih =>
    intro s hs
    rw [List.foldl_cons]
    exact ih _ (hstep s y hs)

theorem nodup_setAdd_cond (cond : String → Bool) (s : List String) (x : String)
    (h : s.Nodup) : (if cond x then setAdd s x else s).Nodup := by
  cases cond x with
  | false => simpa using h
  | true => simpa using nodup_setAdd s x h

theorem nodup_modAdd (s : List String) (x : String) (h : s.Nodup) :
    (modAdd s x).Nodup := by
  by_cases hx : (splitDot x).length < 2
  · simpa [modAdd, hx] using h
  · simpa [modAdd, hx] using nodup_setAdd s (firstSeg x) h

/-! Lemmas about dot splitting. -/

theorem splitDotChars_ne_nil : ∀ cs : List Char, splitDotChars cs ≠ [] := by
  intro cs
  induction cs with
  | nil => simp [splitDotChars]
  | cons c rest ih =>
    by_cases h : c = '.'
    · simp [splitDotChars, h]
    · cases hsp : splitDotChars rest with
      | nil => exact absurd hsp ih
      | cons p ps => simp [splitDotChars, h, hsp]

theorem two_le_splitDotChars_iff :
    ∀ cs : List Char, 2 ≤ (splitDotChars cs).length ↔ '.' ∈ cs := by
  intro cs
  induction cs with
  | nil => simp [splitDotChars]
  | cons c rest ih =>
    by_cases h : c = '.'
    · subst h
      have hrw : splitDotChars ('.' :: rest) = [] :: splitDotChars rest := by
        simp [splitDotChars]
      rw [hrw]
      have h1 : 0 < (splitDotChars rest).length :=
        List.length_pos.mpr (splitDotChars_ne_nil rest)
      simp only [List.length_cons, List.mem_cons]
      constructor
      · intro _
        simp
      · intro _
        omega
    · cases hsp : splitDotChars rest with
      | nil => exact absurd hsp (splitDotChars_ne_nil rest)
      | cons p ps =>
        rw [hsp, List.length_cons] at ih
        simp only [splitDotChars, h, if_false, hsp, List.length_cons, List.mem_cons]
        rw [ih]
        constructor
        · intro hh
          exact Or.inr hh
        · rintro (hh | hh)
          · exact absurd hh.symm h
          · exact hh

theorem head_splitDotChars_no_dot :
    ∀ (cs p : List Char) (ps : List (List Char)),
      splitDotChars cs = p :: ps → '.' ∉ p := by
  intro cs
  induction cs with
  | nil =>
    intro p ps h
    simp only [splitDotChars] at h
    cases h
    simp
  | cons c rest ih =>
    intro p ps h
    by_cases hc : c = '.'
    · rw [splitDotChars, if_pos hc] at h
      cases h
      simp
    · rw [splitDotChars, if_neg hc] at h
      cases hsp : splitDotChars rest with
      | nil => exact absurd hsp (splitDotChars_ne_nil rest)
      | cons q qs =>
        rw [hsp] at h
        have h1 : p = c :: q := (List.cons.inj h).1.symm
        rw [h1]
        intro hmem
        rcases List.mem_cons.mp hmem with hh | hh
        · exact hc hh.symm
        · exact ih q qs hsp hh

theorem two_le_splitDot_iff (s : String) :
    2 ≤ (splitDot s).length ↔ hasDot s = true := by
  rw [splitDot, List.length_map, two_le_splitDotChars_iff, hasDot]
  simp

theorem hasDot_firstSeg (s : String) : hasDot (firstSeg s) = false := by
  cases hsp : splitDotChars s.data with
  | nil => exact absurd hsp (splitDotChars_ne_nil s.data)
  | cons p ps =>
    have hp : '.' ∉ p := head_splitDotChars_no_dot s.data p ps hsp
    have h1 : firstSeg s = String.mk p := by
      simp [firstSeg, splitDot, hsp]
    rw [h1, hasDot]
    simpa using hp

theorem ne_of_dot (a b : String) (ha : hasDot a = true) (hb : hasDot b = false) :
    a ≠ b := by
  intro h
  rw [h, hb] at ha
  cases ha

/-! Lemmas about the pattern loop, modelled with `foldlM` over `Option`. -/

theorem foldlM_single {α β : Type} (f : β → α → Option β) (d : β) (p : α) :
    ([p] : List α).foldlM f d = f d p := by
  cases h : f d p <;> simp [List.foldlM, h]

theorem foldlM_none {α β : Type} (f : β → α → Option β) (p : α)
    (hf : ∀ d, f d p = none) :
    ∀ (args : List α) (d : β), p ∈ args → args.foldlM f d = none := by
  intro args
  induction args with
  | nil => intro d h; cases h
  | cons q args ih =>
    intro d hp
    rcases List.mem_cons.mp hp with rfl | hp2
    · simp [List.foldlM, hf d]
    · cases hq : f d q with
      | none => simp [List.foldlM, hq]
      | some d2 => simp [List.foldlM, hq, ih d2 hp2]

theorem foldlM_inv {α β : Type} (f : β → α → Option β) (inv : β → Prop)
    (hf : ∀ d x d2, f d x = some d2 → inv d → inv d2) :
    ∀ (args : List α) (d out : β), args.foldlM f d = some out → inv d → inv out := by
  intro args
  induction args with
  | nil =>
    intro d out h hd
    simp only [List.foldlM] at h
    cases h
    exact hd
  | cons q args ih =>
    intro d out h hd
    cases hq : f d q with
    | none => simp [List.foldlM, hq] at h
    | some d2 =>
      simp only [List.foldlM, hq, Option.bind_some] at h
      exact ih d2 out (by simpa using h) (hf d q d2 hq hd)

/-! The five doc query families share loop bodies verbatim; the copies are
definitionally equal. -/

theorem runner_doc_eq_doc : runner_doc = doc := rfl

theorem list_state_functions_eq : list_state_functions = list_functions := rfl

theorem list_runner_functions_eq : list_runner_functions = list_functions := rfl

theorem list_state_modules_eq : list_state_modules = list_modules := rfl

theorem list_runners_eq : list_runners = list_modules := rfl

theorem list_returners_eq : list_returners = list_modules := rfl

/-! Single-pattern unfoldings of the queries. -/

theorem doc_plain_eq (reg : Registry) (p : String) (h1 : containsStar p = false) :
    doc reg [p] = some (reg.foldl
      (fun d kv =>
        if kv.1 == p || startswith kv.1 (if p = "" then "" else dotTarget p)
        then dictSet d kv.1 kv.2.doc else d) []) := by
  simp [doc, foldlM_single, docOne, h1, strip_rst]

theorem doc_glob_eq (reg : Registry) (p : String) (toks : List GlobTok)
    (h1 : containsStar p = true) (ht : translate p = some toks) :
    doc reg [p] = some ((reg.filter (fun kv => tokMatch toks kv.1.data)).foldl
      (fun d kv => dictSet d kv.1 kv.2.doc) []) := by
  simp [doc, foldlM_single, docOne, h1, ht, strip_rst]

theorem state_doc_plain_eq (reg : Registry) (p : String) (h1 : containsStar p = false) :
    state_doc reg [p] = some (reg.foldl
      (fun d kv =>
        if kv.1 == p || startswith kv.1 (if p = "" then "" else dotTarget p) then
          dictSet (if dictMem d (firstSeg p) then d
            else kv.2.moduleDoc.elim d (fun md => dictSet d (firstSeg p) md))
            kv.1 kv.2.doc
        else d) []) := by
  simp [state_doc, foldlM_single, state_docOne, h1, strip_rst]

theorem state_doc_glob_eq (reg : Registry) (p : String) (toks : List GlobTok)
    (h1 : containsStar p = true) (ht : translate p = some toks) :
    state_doc reg [p] = some ((reg.filter (fun kv => tokMatch toks kv.1.data)).foldl
      (fun d kv =>
        dictSet (kv.2.moduleDoc.elim d (fun md => dictSet d (firstSeg kv.1) md))
          kv.1 kv.2.doc) []) := by
  simp [state_doc, foldlM_single, state_docOne, h1, ht, strip_rst]

theorem returner_doc_plain_eq (reg : Registry) (p : String) (h1 : containsStar p = false) :
    returner_doc reg [p] = reg.foldl
      (fun d kv =>
        if kv.1 == p || startswith kv.1 (if p = "" then "" else dotTarget p)
        then dictSet d kv.1 kv.2.doc else d) [] := by
  simp [returner_doc, returner_docOne, h1, strip_rst]

theorem returner_doc_glob_eq (reg : Registry) (p : String) (h1 : containsStar p = true) :
    returner_doc reg [p] = reg.foldl
      (fun d kv =>
        if kv.1 == p || startswith kv.1 p then dictSet d kv.1 kv.2.doc else d) [] := by
  simp [returner_doc, returner_docOne, h1, strip_rst]

theorem renderer_doc_plain_eq (reg : Registry) (p : String) (h1 : containsStar p = false) :
    renderer_doc reg [p]
      = some (reg.foldl (fun d kv => dictSet d kv.1 kv.2.doc) []) := by
  simp [renderer_doc, foldlM_single, renderer_docOne, h1, strip_rst]

theorem renderer_doc_glob_eq (reg : Registry) (p : String) (toks : List GlobTok)
    (h1 : containsStar p = true) (ht : translate p = some toks) :
    renderer_doc reg [p] = some ((reg.filter (fun kv => tokMatch toks kv.1.data)).foldl
      (fun d kv => dictSet d kv.1 kv.2.doc) []) := by
  simp [renderer_doc, foldlM_single, renderer_docOne, h1, ht, strip_rst]

theorem list_functions_plain_eq (reg : Registry) (p : String)
    (h1 : containsStar p = false) :
    list_functions reg [p] = some (pysort ((keys reg).foldl
      (fun ns k =>
        if startswith k (if p = "" then p else dotTarget p) then setAdd ns k else ns)
      [])) := by
  simp [list_functions, foldlM_single, list_functionsOne, h1]

theorem list_functions_glob_eq (reg : Registry) (p : String) (toks : List GlobTok)
    (h1 : containsStar p = true) (ht : translate p = some toks) :
    list_functions reg [p]
      = some (pysort ((fnmatchFilter (keys reg) toks).foldl setAdd [])) := by
  simp [list_functions, foldlM_single, list_functionsOne, h1, ht]

theorem list_returner_functions_plain_eq (reg : Registry) (p : String)
    (h1 : containsStar p = false) :
    list_returner_functions reg [p] = pysort ((keys reg).foldl
      (fun ns k =>
        if startswith k (if p = "" then p else dotTarget p) then setAdd ns k else ns)
      []) := by
  simp [list_returner_functions, list_returner_functionsOne, h1]

theorem list_modules_one_eq (reg : Registry) (p : String) (toks : List GlobTok)
    (ht : translate p = some toks) :
    list_modules reg [p]
      = some (pysort ((fnmatchFilter (keys reg) toks).foldl modAdd [])) := by
  simp [list_modules, foldlM_single, list_modulesOne, ht]

theorem list_modules_empty_eq (reg : Registry) :
    list_modules reg [] = some (pysort ((keys reg).foldl modAdd [])) := rfl

theorem doc_plain_ne_eq (reg : Registry) (p : String) (hp : p ≠ "")
    (h1 : containsStar p = false) :
    doc reg [p] = some (reg.foldl
      (fun d kv =>
        if kv.1 == p || startswith kv.1 (dotTarget p)
        then dictSet d kv.1 kv.2.doc else d) []) := by
  rw [doc_plain_eq reg p h1]
  simp [hp]

theorem state_doc_plain_ne_eq (reg : Registry) (p : String) (hp : p ≠ "")
    (h1 : containsStar p = false) :
    state_doc reg [p] = some (reg.foldl
      (fun d kv =>
        if kv.1 == p || startswith kv.1 (dotTarget p) then
          dictSet (if dictMem d (firstSeg p) then d
            else kv.2.moduleDoc.elim d (fun md => dictSet d (firstSeg p) md))
            kv.1 kv.2.doc
        else d) []) := by
  rw [state_doc_plain_eq reg p h1]
  simp [hp]

theorem returner_doc_plain_ne_eq (reg : Registry) (p : String) (hp : p ≠ "")
    (h1 : containsStar p = false) :
    returner_doc reg [p] = reg.foldl
      (fun d kv =>
        if kv.1 == p || startswith kv.1 (dotTarget p)
        then dictSet d kv.1 kv.2.doc else d) [] := by
  rw [returner_doc_plain_eq reg p h1]
  simp [hp]

theorem list_functions_plain_ne_eq (reg : Registry) (p : String) (hp : p ≠ "")
    (h1 : containsStar p = false) :
    list_functions reg [p] = some (pysort ((keys reg).foldl
      (fun ns k => if startswith k (dotTarget p) then setAdd ns k else ns) [])) := by
  rw [list_functions_plain_eq reg p h1]
  simp [hp]

theorem list_returner_functions_plain_ne_eq (reg : Registry) (p : String) (hp : p ≠ "")
    (h1 : containsStar p = false) :
    list_returner_functions reg [p] = pysort ((keys reg).foldl
      (fun ns k => if startswith k (dotTarget p) then setAdd ns k else ns) []) := by
  rw [list_returner_functions_plain_eq reg p h1]
  simp [hp]

/-! Value tracking of the module-doc key through the plain state-doc fold. -/

theorem get_state_plain_stable (p target : String) :
    ∀ reg : Registry, (∀ kv, kv ∈ reg → kv.1 ≠ firstSeg p) →
      ∀ (d : Docs) (v : Option String), dictGet d (firstSeg p) = some v →
        dictGet (reg.foldl
          (fun d kv =>
            if kv.1 == p || startswith kv.1 target then
              dictSet (if dictMem d (firstSeg p) then d
                else kv.2.moduleDoc.elim d (fun md => dictSet d (firstSeg p) md))
                kv.1 kv.2.doc
            else d) d) (firstSeg p) = some v := by
  intro reg
  induction reg with
  | nil =>
    intro _ d v h
    simpa using h
  | cons kv reg ih =>
    intro hne d v h
    have hkv : kv.1 ≠ firstSeg p := hne kv (List.mem_cons_self kv reg)
    have hrest : ∀ kw, kw ∈ reg → kw.1 ≠ firstSeg p :=
      fun kw hm => hne kw (List.mem_cons_of_mem kv hm)
    rw [List.foldl_cons]
    by_cases hc : (kv.1 == p || startswith kv.1 target) = true
    · rw [if_pos hc]
      have hmem : dictMem d (firstSeg p) = true := by
        rw [dictMem_eq_isSome, h]
        rfl
      rw [if_pos hmem]
      refine ih hrest (dictSet d kv.1 kv.2.doc) v ?_
      rw [get_dictSet_ne d kv.1 (firstSeg p) kv.2.doc (Ne.symm hkv)]
      exact h
    · rw [if_neg hc]
      exact ih hrest d v h

theorem get_state_plain_none (p target : String) :
    ∀ reg : Registry, (∀ kv, kv ∈ reg → kv.1 ≠ firstSeg p) →
      ∀ d : Docs, dictGet d (firstSeg p) = none →
        dictGet (reg.foldl
          (fun d kv =>
            if kv.1 == p || startswith kv.1 target then
              dictSet (if dictMem d (firstSeg p) then d
                else kv.2.moduleDoc.elim d (fun md => dictSet d (firstSeg p) md))
                kv.1 kv.2.doc
            else d) d) (firstSeg p)
          = (reg.find? (fun kv =>
              (kv.1 == p || startswith kv.1 target) && kv.2.moduleDoc.isSome)).bind
              (fun kv => kv.2.moduleDoc) := by
  intro reg
  induction reg with
  | nil =>
    intro _ d h
    simpa using h
  | cons kv reg ih =>
    intro hne d h
    have hkv : kv.1 ≠ firstSeg p := hne kv (List.mem_cons_self kv reg)
    have hrest : ∀ kw, kw ∈ reg → kw.1 ≠ firstSeg p :=
      fun kw hm => hne kw (List.mem_cons_of_mem kv hm)
    rw [List.foldl_cons]
    by_cases hc : (kv.1 == p || startswith kv.1 target) = true
    · rw [if_pos hc]
      have hmem : dictMem d (firstSeg p) = false := by
        rw [dictMem_eq_isSome, h]
        rfl
      rw [if_neg (by simp [hmem])]
      cases hmd : kv.2.moduleDoc with
      | none =>
        rw [List.find?_cons_of_neg _ (by simp [hmd])]
        have hget : dictGet (dictSet d kv.1 kv.2.doc) (firstSeg p) = none := by
          rw [get_dictSet_ne d kv.1 (firstSeg p) kv.2.doc (Ne.symm hkv)]
          exact h
        exact ih hrest (dictSet d kv.1 kv.2.doc) hget
      | some md =>
        rw [List.find?_cons_of_pos _ (by simp [hc, hmd])]
        have hget : dictGet (dictSet (dictSet d (firstSeg p) md) kv.1 kv.2.doc)
            (firstSeg p) = some md := by
          rw [get_dictSet_ne _ kv.1 (firstSeg p) kv.2.doc (Ne.symm hkv)]
          exact get_dictSet_self d (firstSeg p) md
        have hstable := get_state_plain_stable p target reg hrest
          (dictSet (dictSet d (firstSeg p) md) kv.1 kv.2.doc) md hget
        exact hstable.trans (by simp [hmd])
    · rw [if_neg hc]
      rw [List.find?_cons_of_neg _ (by simp [hc])]
      exact ih hrest d h

/-! Last bridging lemmas used by the claim theorems. -/

theorem mem_keys_filter (reg : Registry) (pred : String → Bool) (k : String) :
    k ∈ keys (reg.filter (fun kv => pred kv.1)) ↔ k ∈ keys reg ∧ pred k = true := by
  simp only [keys, List.mem_map, List.mem_filter]
  constructor
  · rintro ⟨kv, ⟨hm, hp⟩, rfl⟩
    exact ⟨⟨kv, hm, rfl⟩, hp⟩
  · rintro ⟨⟨kv, hm, rfl⟩, hp⟩
    exact ⟨kv, ⟨hm, hp⟩, rfl⟩

theorem exists_key_cond (reg : Registry) (cond : String → Bool) (k : String) :
    (∃ kv, kv ∈ reg ∧ cond kv.1 = true ∧ kv.1 = k) ↔ k ∈ keys reg ∧ cond k = true := by
  constructor
  · rintro ⟨kv, hm, hc, rfl⟩
    exact ⟨List.mem_map.mpr ⟨kv, hm, rfl⟩, hc⟩
  · rintro ⟨hm, hc⟩
    rcases List.mem_map.mp hm with ⟨kv, hkv, rfl⟩
    exact ⟨kv, hkv, hc, rfl⟩

theorem foldl_modAdd_skip :
    ∀ (l : List String) (s : List String),
      (∀ k, k ∈ l → (splitDot k).length < 2) → l.foldl modAdd s = s := by
  intro l
  induction l with
  | nil => intro s _; rfl
  | cons y l ih =>
    intro s hl
    rw [List.foldl_cons, show modAdd s y = s from by
      simp [modAdd, hl y (List.mem_cons_self y l)]]
    exact ih s (fun k hk => hl k (List.mem_cons_of_mem y hk))

theorem list_functionsOne_nodup (reg : Registry) :
    ∀ (names : List String) (p : String) (names2 : List String),
      list_functionsOne reg names p = some names2 → names.Nodup → names2.Nodup := by
  intro names p names2 h hn
  by_cases h1 : containsStar p = true
  · rw [list_functionsOne, if_pos h1] at h
    cases ht : translate p with
    | none =>
      rw [ht] at h
      cases h
    | some toks =>
      rw [ht] at h
      simp only [Option.some.injEq] at h
      rw [← h]
      exact nodup_foldl setAdd nodup_setAdd _ names hn
  · rw [list_functionsOne, if_neg h1] at h
    simp only [Option.some.injEq] at h
    rw [← h]
    exact nodup_foldl _ (fun s x hs => nodup_setAdd_cond
      (fun k => startswith k (if p = "" then p else dotTarget p)) s x hs) _ names hn

theorem list_returner_functionsOne_nodup (reg : Registry) (names : List String)
    (p : String) (hn : names.Nodup) : (list_returner_functionsOne reg names p).Nodup := by
  by_cases h1 : containsStar p = true
  · rw [list_returner_functionsOne, if_pos h1]
    exact nodup_foldl _ (fun s x hs => nodup_setAdd_cond
      (fun k => startswith k p) s x hs) _ names hn
  · rw [list_returner_functionsOne, if_neg h1]
    exact nodup_foldl _ (fun s x hs => nodup_setAdd_cond
      (fun k => startswith k (if p = "" then p else dotTarget p)) s x hs) _ names hn

theorem list_modulesOne_nodup (reg : Registry) :
    ∀ (mods : List String) (p : String) (mods2 : List String),
      list_modulesOne reg mods p = some mods2 → mods.Nodup → mods2.Nodup := by
  intro mods p mods2 h hn
  rw [list_modulesOne] at h
  cases ht : translate p with
  | none =>
    rw [ht] at h
    cases h
  | some toks =>
    rw [ht] at h
    simp only [Option.some.injEq] at h
    rw [← h]
    exact nodup_foldl modAdd nodup_modAdd _ mods hn

theorem list_renderersOne_nodup (reg : Registry) :
    ∀ (ren : List String) (p : String) (ren2 : List String),
      list_renderersOne reg ren p = some ren2 → ren.Nodup → ren2.Nodup := by
  intro ren p ren2 h hn
  rw [list_renderersOne] at h
  cases ht : translate p with
  | none =>
    rw [ht] at h
    cases h
  | some toks =>
    rw [ht] at h
    simp only [Option.some.injEq] at h
    rw [← h]
    exact nodup_foldl setAdd nodup_setAdd _ ren hn

theorem startswith_empty (s : String) : startswith s "" = true := by
  show List.isPrefixOf "".data s.data = true
  rw [show "".data = ([] : List Char) from rfl]
  cases s.data <;> rfl

/-! Claim theorems. -/

/-- Claim C10: the public operation `reload_modules` always returns `True`
for every invocation; its body is the constant `True` and, being a constant
of the embedding, it touches no registry or other state. -/
theorem c10_reload_modules : reload_modules = true := rfl

/-- Claim C8: module-name derivation. A name contributes the segment before
its first dot exactly when it has at least two dot-separated components
(equivalently, when it contains a dot); the list-modules queries apply this
derivation to the matched names and sort the resulting set; the spec's two
examples evaluate as stated. -/
theorem c8_list_modules_derivation :
    (∀ (names s : List String) (m : String),
      m ∈ names.foldl modAdd s
        ↔ m ∈ s ∨ ∃ n, n ∈ names ∧ ¬(splitDot n).length < 2 ∧ firstSeg n = m)
    ∧ (∀ n : String, 2 ≤ (splitDot n).length ↔ hasDot n = true)
    ∧ (∀ reg : Registry,
        list_modules reg [] = some (pysort ((keys reg).foldl modAdd [])))
    ∧ (∀ (reg : Registry) (p : String) (toks : List GlobTok), translate p = some toks →
        list_modules reg [p]
          = some (pysort ((fnmatchFilter (keys reg) toks).foldl modAdd [])))
    ∧ pysort (["sys.doc", "sys.list_functions", "user.info"].foldl modAdd [])
        = ["sys", "user"]
    ∧ pysort (["bare"].foldl modAdd []) = [] :=
  ⟨mem_foldl_modAdd, two_le_splitDot_iff, list_modules_empty_eq,
   fun reg p toks ht => list_modules_one_eq reg p toks ht, by decide, by decide⟩

/-- Claim C8 witness: the glob conjunct applied to a concrete registry and
pattern, with the translation hypothesis discharged by evaluation. -/
theorem c8_witness :
    list_modules [("sys.doc", ⟨some "d", none⟩)] ["s*"]
      = some (pysort ((fnmatchFilter (keys [("sys.doc", ⟨some "d", none⟩)])
          [GlobTok.lit 's', GlobTok.star]).foldl modAdd [])) :=
  c8_list_modules_derivation.2.2.2.1 [("sys.doc", ⟨some "d", none⟩)] "s*"
    [GlobTok.lit 's', GlobTok.star] (by decide)

/-- Claim C7 counterexample: the empty-string pattern does not select
"effectively nothing" — in `doc` it selects every key, here the key
`a.b`, because the prefix target degenerates to the empty string and
`startswith` with an empty prefix is always true. -/
theorem c7_counterexample :
    doc [("a.b", ⟨some "d", none⟩)] [""] = some [("a.b", some "d")] := by decide

/-- Claim C7 (amended): an empty-string pattern selects every key in the
doc-style and list-functions-style queries (their prefix test degenerates to
`startswith ""`), while the fnmatch-based list-modules queries compile the
empty pattern to a regular expression matching only the empty string, so
they yield no modules at all. -/
theorem c7_empty_pattern (reg : Registry) :
    (∀ d, doc reg [""] = some d → ∀ k, dictMem d k = true ↔ k ∈ keys reg)
    ∧ (∀ k, dictMem (returner_doc reg [""]) k = true ↔ k ∈ keys reg)
    ∧ (∀ out, list_functions reg [""] = some out → ∀ k, k ∈ out ↔ k ∈ keys reg)
    ∧ list_modules reg [""] = some [] := by
  refine ⟨?_, ?_, ?_, ?_⟩
  · intro d hd k
    rw [doc_plain_eq reg "" (by decide)] at hd
    injection hd with hF
    rw [← hF]
    refine Iff.trans (mem_plain_fold reg [] "" _ k) ?_
    simp [dictMem, startswith_empty]
  · intro k
    rw [returner_doc_plain_eq reg "" (by decide)]
    refine Iff.trans (mem_plain_fold reg [] "" _ k) ?_
    simp [dictMem, startswith_empty]
  · intro out hout k
    rw [list_functions_plain_eq reg "" (by decide)] at hout
    injection hout with hF
    rw [← hF, mem_pysort]
    refine Iff.trans (mem_foldl_setAdd_cond _ (keys reg) [] k) ?_
    simp [startswith_empty]
  · rw [list_modules_one_eq reg "" [] rfl]
    have hskip : (fnmatchFilter (keys reg) []).foldl modAdd [] = [] := by
      refine foldl_modAdd_skip _ [] ?_
      intro k hk
      have hmem := (List.mem_filter.mp hk).2
      have hdata : k.data = [] := by
        have : k.data.isEmpty = true := hmem
        simpa using this
      rw [splitDot, hdata]
      simp [splitDotChars]
    rw [hskip]
    rfl

/-- Claim C7 witness: the doc conjunct applied to a one-entry registry. -/
theorem c7_witness :
    dictMem [("a.b", some "d")] "a.b" = true
      ↔ "a.b" ∈ keys [("a.b", (⟨some "d", none⟩ : Entry))] :=
  (c7_empty_pattern [("a.b", ⟨some "d", none⟩)]).1 [("a.b", some "d")] (by decide) "a.b"

/-- Claim C3 counterexample: the list queries do insert a trailing dot. With
keys `sys.doc` and `sysctl.get`, the raw-startswith rule of the claim would
select both (the second conjunct shows `sysctl.get` starts with `sys`), but
`list_functions` selects only `sys.doc`. -/
theorem c3_counterexample :
    startswith "sysctl.get" "sys" = true
    ∧ list_functions [("sys.doc", ⟨some "d", none⟩), ("sysctl.get", ⟨some "d", none⟩)]
        ["sys"] = some ["sys.doc"] := by
  decide

/-- Claim C3 (amended): for every list-style query and non-empty pattern
without a glob metacharacter, a key is selected if and only if it starts
with the pattern normalized to end in a dot (`dotTarget`): the trailing-dot
insertion IS applied, and there is no exact-equality branch. -/
theorem c3_list_startswith (reg : Registry) (p : String) (hp : p ≠ "")
    (h1 : containsStar p = false) (h2 : ¬ '?' ∈ p.data) (h3 : ¬ '[' ∈ p.data) :
    (∀ out, list_functions reg [p] = some out →
      ∀ k, k ∈ out ↔ k ∈ keys reg ∧ startswith k (dotTarget p) = true)
    ∧ (∀ out, list_state_functions reg [p] = some out →
      ∀ k, k ∈ out ↔ k ∈ keys reg ∧ startswith k (dotTarget p) = true)
    ∧ (∀ out, list_runner_functions reg [p] = some out →
      ∀ k, k ∈ out ↔ k ∈ keys reg ∧ startswith k (dotTarget p) = true)
    ∧ (∀ k, k ∈ list_returner_functions reg [p]
        ↔ k ∈ keys reg ∧ startswith k (dotTarget p) = true) := by
  have main : ∀ out, list_functions reg [p] = some out →
      ∀ k, k ∈ out ↔ k ∈ keys reg ∧ startswith k (dotTarget p) = true := by
    intro out hout k
    rw [list_functions_plain_ne_eq reg p hp h1] at hout
    injection hout with hF
    rw [← hF, mem_pysort]
    refine Iff.trans (mem_foldl_setAdd_cond _ (keys reg) [] k) ?_
    simp
  refine ⟨main, ?_, ?_, ?_⟩
  · rw [list_state_functions_eq]
    exact main
  · rw [list_runner_functions_eq]
    exact main
  · intro k
    rw [list_returner_functions_plain_ne_eq reg p hp h1, mem_pysort]
    refine Iff.trans (mem_foldl_setAdd_cond _ (keys reg) [] k) ?_
    simp

/-- Claim C3 witness: the list_functions conjunct applied to a concrete
registry, with all hypotheses discharged by evaluation. -/
theorem c3_witness :
    "sys.doc" ∈ (["sys.doc"] : List String)
      ↔ "sys.doc" ∈ keys [("sys.doc", (⟨some "d", none⟩ : Entry))]
          ∧ startswith "sys.doc" (dotTarget "sys") = true :=
  (c3_list_startswith [("sys.doc", ⟨some "d", none⟩)] "sys" (by decide) (by decide)
    (by decide) (by decide)).1 ["sys.doc"] (by decide) "sys.doc"

/-- Claim C2 counterexample: the exact-match invariant fails. First conjunct:
`list_functions` with the full qualified name `sys.doc` as the pattern (the
only key, so no other key shares the prefix) returns the empty list, not a
list containing the key. Second conjunct: even a doc-style query misses a
key containing glob characters — for the key `a[bc]*`, querying `doc` with
the key itself as the pattern returns an empty mapping, because the starred
pattern goes through fnmatch and does not match itself. -/
theorem c2_counterexample :
    list_functions [("sys.doc", ⟨some "d", none⟩)] ["sys.doc"] = some []
    ∧ doc [("a[bc]*", ⟨some "d", none⟩)] ["a[bc]*"] = some [] := by
  decide

/-- Claim C2 (amended): the exact-match invariant holds for the five
doc-style queries whenever the key contains no `*` (the equality branch of
their plain match, or for `renderer_doc` the absence of any filter); it does
not hold for list-style queries, and for doc-style queries only with the
no-star proviso. -/
theorem c2_exact_match (reg : Registry) (k : String) (hk : k ∈ keys reg)
    (h1 : containsStar k = false) :
    (∀ d, doc reg [k] = some d → dictMem d k = true)
    ∧ (∀ d, state_doc reg [k] = some d → dictMem d k = true)
    ∧ (∀ d, runner_doc reg [k] = some d → dictMem d k = true)
    ∧ dictMem (returner_doc reg [k]) k = true
    ∧ (∀ d, renderer_doc reg [k] = some d → dictMem d k = true) := by
  have hdoc : ∀ d, doc reg [k] = some d → dictMem d k = true := by
    intro d hd
    rw [doc_plain_eq reg k h1] at hd
    injection hd with hF
    rw [← hF]
    exact (mem_plain_fold reg [] k _ k).mpr (Or.inr ⟨hk, by simp⟩)
  refine ⟨hdoc, ?_, ?_, ?_, ?_⟩
  · intro d hd
    rw [state_doc_plain_eq reg k h1] at hd
    injection hd with hF
    rw [← hF]
    rcases List.mem_map.mp hk with ⟨kv, hkv, hkeq⟩
    refine (mem_state_plain_fold reg [] k _ k).mpr
      (Or.inr ⟨kv, hkv, ?_, Or.inl hkeq⟩)
    rw [hkeq]
    simp
  · rw [runner_doc_eq_doc]
    exact hdoc
  · rw [returner_doc_plain_eq reg k h1]
    exact (mem_plain_fold reg [] k _ k).mpr (Or.inr ⟨hk, by simp⟩)
  · intro d hd
    rw [renderer_doc_plain_eq reg k h1] at hd
    injection hd with hF
    rw [← hF]
    exact (mem_all_fold reg [] k).mpr (Or.inr hk)

/-- Claim C2 witness: the returner conjunct applied to a concrete registry
and key, hypotheses discharged by evaluation. -/
theorem c2_witness :
    dictMem (returner_doc [("a.b", ⟨some "d", none⟩)] ["a.b"]) "a.b" = true :=
  (c2_exact_match [("a.b", ⟨some "d", none⟩)] "a.b" (by decide) (by decide)).2.2.2.1

/-- Claim C1 counterexample: the dotted-prefix rule does not hold for
`renderer_doc`. With keys `jinja` and `yaml`, the non-glob pattern `jinja`
returns docs for both keys, although `yaml` neither equals the pattern nor
starts with the pattern followed by a dot (second conjunct). -/
theorem c1_counterexample :
    renderer_doc [("jinja", ⟨some "dj", none⟩), ("yaml", ⟨some "dy", none⟩)] ["jinja"]
        = some [("jinja", some "dj"), ("yaml", some "dy")]
    ∧ (("yaml" == "jinja") || startswith "yaml" (dotTarget "jinja")) = false := by
  decide

/-- Claim C1 (amended): for a non-empty pattern without glob metacharacters,
the doc-style queries `doc`, `runner_doc` and `returner_doc` select exactly
the registry keys that equal the pattern or start with the dot-normalized
pattern; `state_doc` does the same on registries whose keys are all dotted
(its extra bare-module-name key is dot-free and therefore outside the
registry keys); `renderer_doc` applies no filter at all for such patterns
and returns every key. -/
theorem c1_doc_dotted (reg : Registry) (p : String) (hp : p ≠ "")
    (h1 : containsStar p = false) (h2 : ¬ '?' ∈ p.data) (h3 : ¬ '[' ∈ p.data) :
    (∀ d, doc reg [p] = some d →
      ∀ k, dictMem d k = true
        ↔ k ∈ keys reg ∧ (k == p || startswith k (dotTarget p)) = true)
    ∧ (∀ d, runner_doc reg [p] = some d →
      ∀ k, dictMem d k = true
        ↔ k ∈ keys reg ∧ (k == p || startswith k (dotTarget p)) = true)
    ∧ (∀ k, dictMem (returner_doc reg [p]) k = true
        ↔ k ∈ keys reg ∧ (k == p || startswith k (dotTarget p)) = true)
    ∧ ((∀ k0, k0 ∈ keys reg → hasDot k0 = true) →
        ∀ d, state_doc reg [p] = some d → ∀ k, k ∈ keys reg →
          (dictMem d k = true ↔ (k == p || startswith k (dotTarget p)) = true))
    ∧ (∀ d, renderer_doc reg [p] = some d →
        ∀ k, dictMem d k = true ↔ k ∈ keys reg) := by
  have hdoc : ∀ d, doc reg [p] = some d →
      ∀ k, dictMem d k = true
        ↔ k ∈ keys reg ∧ (k == p || startswith k (dotTarget p)) = true := by
    intro d hd k
    rw [doc_plain_ne_eq reg p hp h1] at hd
    injection hd with hF
    rw [← hF]
    refine Iff.trans (mem_plain_fold reg [] p (dotTarget p) k) ?_
    simp [dictMem]
  refine ⟨hdoc, ?_, ?_, ?_, ?_⟩
  · rw [runner_doc_eq_doc]
    exact hdoc
  · intro k
    rw [returner_doc_plain_ne_eq reg p hp h1]
    refine Iff.trans (mem_plain_fold reg [] p (dotTarget p) k) ?_
    simp [dictMem]
  · intro hdot d hd k hk
    rw [state_doc_plain_ne_eq reg p hp h1] at hd
    injection hd with hF
    rw [← hF]
    refine Iff.trans (mem_state_plain_fold reg [] p (dotTarget p) k) ?_
    constructor
    · rintro (habs | ⟨kv, hkv, hc, hr⟩)
      · simp [dictMem] at habs
      · rcases hr with rfl | ⟨_, hseg⟩
        · exact hc
        · have hdk : hasDot k = true := hdot k hk
          have hfd := hasDot_firstSeg p
          rw [hseg] at hfd
          rw [hfd] at hdk
          cases hdk
    · intro hc
      rcases List.mem_map.mp hk with ⟨kv, hkv, hkeq⟩
      refine Or.inr ⟨kv, hkv, ?_, Or.inl hkeq⟩
      rw [hkeq]
      exact hc
  · intro d hd k
    rw [renderer_doc_plain_eq reg p h1] at hd
    injection hd with hF
    rw [← hF]
    refine Iff.trans (mem_all_fold reg [] k) ?_
    simp [dictMem]

/-- Claim C1 witness: the doc conjunct applied to the spec's prefix-safety
scenario (keys `sys.doc` and `sysctl.get`, pattern `sys`). -/
theorem c1_witness :
    dictMem [("sys.doc", some "d")] "sys.doc" = true
      ↔ "sys.doc" ∈ keys [("sys.doc", (⟨some "d", none⟩ : Entry)),
          ("sysctl.get", (⟨some "d", none⟩ : Entry))]
        ∧ (("sys.doc" == "sys") || startswith "sys.doc" (dotTarget "sys")) = true :=
  (c1_doc_dotted [("sys.doc", ⟨some "d", none⟩), ("sysctl.get", ⟨some "d", none⟩)]
    "sys" (by decide) (by decide) (by decide) (by decide)).1
    [("sys.doc", some "d")] (by decide) "sys.doc"

/-- Claim C4 counterexample: glob handling is not uniform. The pattern
`x?.f` contains the glob metacharacter `?` and glob-matches the key `xy.f`
(first two conjuncts), yet `doc` selects nothing for it, because only `*`
triggers the glob branch. And `returner_doc` never calls fnmatch in its
glob branch: the starred pattern `sqlite3.get_*` glob-matches the key
`sqlite3.get_fun` (fourth conjunct) but returns an empty mapping. -/
theorem c4_counterexample :
    translate "x?.f"
        = some [GlobTok.lit 'x', GlobTok.anyChar, GlobTok.lit '.', GlobTok.lit 'f']
    ∧ tokMatch [GlobTok.lit 'x', GlobTok.anyChar, GlobTok.lit '.', GlobTok.lit 'f']
        "xy.f".data = true
    ∧ doc [("xy.f", ⟨some "d", none⟩)] ["x?.f"] = some []
    ∧ tokMatch ((translate "sqlite3.get_*").getD []) "sqlite3.get_fun".data = true
    ∧ returner_doc [("sqlite3.get_fun", ⟨some "d", none⟩)] ["sqlite3.get_*"] = [] := by
  decide

/-- Claim C4 (amended): only `*` triggers the glob branch. For a pattern
containing `*` that compiles, `doc`, `runner_doc` and `renderer_doc` select
exactly the keys the translated pattern matches, and `state_doc` does the
same on registries with all-dotted keys; `returner_doc` instead selects the
keys that equal the pattern or start with the raw pattern string. -/
theorem c4_glob (reg : Registry) (p : String) (toks : List GlobTok)
    (h1 : containsStar p = true) (ht : translate p = some toks) :
    (∀ d, doc reg [p] = some d →
      ∀ k, dictMem d k = true ↔ k ∈ keys reg ∧ tokMatch toks k.data = true)
    ∧ (∀ d, runner_doc reg [p] = some d →
      ∀ k, dictMem d k = true ↔ k ∈ keys reg ∧ tokMatch toks k.data = true)
    ∧ (∀ d, renderer_doc reg [p] = some d →
      ∀ k, dictMem d k = true ↔ k ∈ keys reg ∧ tokMatch toks k.data = true)
    ∧ (∀ k, dictMem (returner_doc reg [p]) k = true
        ↔ k ∈ keys reg ∧ (k == p || startswith k p) = true)
    ∧ ((∀ k0, k0 ∈ keys reg → hasDot k0 = true) →
        ∀ d, state_doc reg [p] = some d → ∀ k, k ∈ keys reg →
          (dictMem d k = true ↔ tokMatch toks k.data = true)) := by
  have hdoc : ∀ d, doc reg [p] = some d →
      ∀ k, dictMem d k = true ↔ k ∈ keys reg ∧ tokMatch toks k.data = true := by
    intro d hd k
    rw [doc_glob_eq reg p toks h1 ht] at hd
    injection hd with hF
    rw [← hF]
    refine Iff.trans (mem_all_fold _ [] k) ?_
    refine Iff.trans (or_iff_right (by simp [dictMem])) ?_
    exact mem_keys_filter reg (fun s => tokMatch toks s.data) k
  refine ⟨hdoc, ?_, ?_, ?_, ?_⟩
  · rw [runner_doc_eq_doc]
    exact hdoc
  · intro d hd k
    rw [renderer_doc_glob_eq reg p toks h1 ht] at hd
    injection hd with hF
    rw [← hF]
    refine Iff.trans (mem_all_fold _ [] k) ?_
    refine Iff.trans (or_iff_right (by simp [dictMem])) ?_
    exact mem_keys_filter reg (fun s => tokMatch toks s.data) k
  · intro k
    rw [returner_doc_glob_eq reg p h1]
    refine Iff.trans (mem_plain_fold reg [] p p k) ?_
    simp [dictMem]
  · intro hdot d hd k hk
    rw [state_doc_glob_eq reg p toks h1 ht] at hd
    injection hd with hF
    rw [← hF]
    refine Iff.trans (mem_state_glob_fold _ [] k) ?_
    constructor
    · rintro (habs | ⟨kv, hkv, hr⟩)
      · simp [dictMem] at habs
      · have hkv2 := List.mem_filter.mp hkv
        rcases hr with rfl | ⟨_, hseg⟩
        · exact hkv2.2
        · have hdk : hasDot k = true := hdot k hk
          have hfd := hasDot_firstSeg kv.1
          rw [hseg] at hfd
          rw [hfd] at hdk
          cases hdk
    · intro hmtch
      rcases List.mem_map.mp hk with ⟨kv, hkv, hkeq⟩
      refine Or.inr ⟨kv, List.mem_filter.mpr ⟨hkv, ?_⟩, Or.inl hkeq⟩
      rw [hkeq]
      exact hmtch

/-- Claim C4 witness: the doc conjunct applied to key `sys.doc` and the
starred pattern `sys.*`, hypotheses discharged by evaluation. -/
theorem c4_witness :
    dictMem [("sys.doc", some "d")] "sys.doc" = true
      ↔ "sys.doc" ∈ keys [("sys.doc", (⟨some "d", none⟩ : Entry))]
        ∧ tokMatch [GlobTok.lit 's', GlobTok.lit 'y', GlobTok.lit 's',
            GlobTok.lit '.', GlobTok.star] "sys.doc".data = true :=
  (c4_glob [("sys.doc", ⟨some "d", none⟩)] "sys.*"
    [GlobTok.lit 's', GlobTok.lit 'y', GlobTok.lit 's', GlobTok.lit '.', GlobTok.star]
    (by decide) (by decide)).1 [("sys.doc", some "d")] (by decide) "sys.doc"

/-- Claim C5 counterexample: in the glob branch of `state_doc` the module
doc is recorded once per MATCHED FUNCTION, not once per module, and the last
write wins. Two functions of module `service` carry module docs `X` and `Y`;
after the glob query the module key holds `Y` (the second matched function's
module doc), not the first-encountered `X`, so it was not recorded "the
first time that module is encountered, and only once per module". -/
theorem c5_counterexample :
    state_doc [("service.a", ⟨some "da", some (some "X")⟩),
        ("service.b", ⟨some "db", some (some "Y")⟩)] ["service.*"]
      = some [("service", some "Y"), ("service.a", some "da"),
              ("service.b", some "db")] := by
  decide

/-- Claim C5 (amended): the spec's scenario holds as stated (first
conjunct), and for NON-GLOB patterns over a registry with all-dotted keys
the module-doc key holds exactly the moduleDoc of the first matched entry
that carries one: the recording is guarded by key absence, so it happens at
most once per call. For glob patterns the guard is missing and every
matched function overwrites the key (see the counterexample). -/
theorem c5_state_module_doc :
    (state_doc [("service.running",
        ⟨some "runningdoc", some (some "Service state module")⟩)] ["service"]
      = some [("service", some "Service state module"),
              ("service.running", some "runningdoc")])
    ∧ (∀ (reg : Registry) (p : String), p ≠ "" → containsStar p = false →
        (∀ k0, k0 ∈ keys reg → hasDot k0 = true) →
        ∀ d, state_doc reg [p] = some d →
          dictGet d (firstSeg p)
            = (reg.find? (fun kv =>
                (kv.1 == p || startswith kv.1 (dotTarget p))
                  && kv.2.moduleDoc.isSome)).bind (fun kv => kv.2.moduleDoc)) := by
  refine ⟨by decide, ?_⟩
  intro reg p hp h1 hdot d hd
  rw [state_doc_plain_ne_eq reg p hp h1] at hd
  injection hd with hF
  rw [← hF]
  have hne : ∀ kv, kv ∈ reg → kv.1 ≠ firstSeg p := by
    intro kv hkv
    exact ne_of_dot kv.1 (firstSeg p)
      (hdot kv.1 (List.mem_map.mpr ⟨kv, hkv, rfl⟩)) (hasDot_firstSeg p)
  exact get_state_plain_none p (dotTarget p) reg hne [] rfl

/-- Claim C5 witness: the general conjunct applied to the spec's scenario
registry; all hypotheses discharged by evaluation. -/
theorem c5_witness :
    dictGet [("service", some "Service state module"),
        ("service.running", some "runningdoc")] (firstSeg "service")
      = (([("service.running",
            (⟨some "runningdoc", some (some "Service state module")⟩ : Entry))] :
          Registry).find? (fun kv =>
            (kv.1 == "service" || startswith kv.1 (dotTarget "service"))
              && kv.2.moduleDoc.isSome)).bind (fun kv => kv.2.moduleDoc) :=
  c5_state_module_doc.2
    [("service.running", ⟨some "runningdoc", some (some "Service state module")⟩)]
    "service" (by decide) (by decide) (by decide)
    [("service", some "Service state module"), ("service.running", some "runningdoc")]
    (by decide)

/-- Claim C6: every list-valued query returns a strictly ascending (hence
deduplicated and sorted) sequence of strings, for every argument list, given
that the registry's key list is duplicate-free (Python dict keys always
are). -/
theorem c6_sorted_dedup (reg : Registry) (h : (keys reg).Nodup) :
    (∀ args out, list_functions reg args = some out → out.Sorted (· < ·))
    ∧ (∀ args out, list_state_functions reg args = some out → out.Sorted (· < ·))
    ∧ (∀ args out, list_runner_functions reg args = some out → out.Sorted (· < ·))
    ∧ (∀ args, (list_returner_functions reg args).Sorted (· < ·))
    ∧ (∀ args out, list_modules reg args = some out → out.Sorted (· < ·))
    ∧ (∀ args out, list_state_modules reg args = some out → out.Sorted (· < ·))
    ∧ (∀ args out, list_runners reg args = some out → out.Sorted (· < ·))
    ∧ (∀ args out, list_returners reg args = some out → out.Sorted (· < ·))
    ∧ (∀ args out, list_renderers reg args = some out → out.Sorted (· < ·)) := by
  have hlf : ∀ args out, list_functions reg args = some out → out.Sorted (· < ·) := by
    intro args out hout
    cases args with
    | nil =>
      have hunfold : list_functions reg [] = some (pysort (keys reg)) := rfl
      rw [hunfold] at hout
      injection hout with hF
      rw [← hF]
      exact sortedLT_pysort _ h
    | cons q qs =>
      have hunfold : list_functions reg (q :: qs)
          = ((q :: qs).foldlM (list_functionsOne reg) []).map pysort := rfl
      rw [hunfold] at hout
      cases hfold : (q :: qs).foldlM (list_functionsOne reg) [] with
      | none =>
        rw [hfold] at hout
        cases hout
      | some X =>
        rw [hfold] at hout
        injection hout with hF
        rw [← hF]
        refine sortedLT_pysort X ?_
        exact foldlM_inv (list_functionsOne reg) List.Nodup
          (fun d x d2 hd hnd => list_functionsOne_nodup reg d x d2 hd hnd)
          (q :: qs) [] X hfold (by simp)
  have hlm : ∀ args out, list_modules reg args = some out → out.Sorted (· < ·) := by
    intro args out hout
    cases args with
    | nil =>
      rw [list_modules_empty_eq reg] at hout
      injection hout with hF
      rw [← hF]
      refine sortedLT_pysort _ ?_
      exact nodup_foldl modAdd nodup_modAdd (keys reg) [] (by simp)
    | cons q qs =>
      have hunfold : list_modules reg (q :: qs)
          = ((q :: qs).foldlM (list_modulesOne reg) []).map pysort := rfl
      rw [hunfold] at hout
      cases hfold : (q :: qs).foldlM (list_modulesOne reg) [] with
      | none =>
        rw [hfold] at hout
        cases hout
      | some X =>
        rw [hfold] at hout
        injection hout with hF
        rw [← hF]
        refine sortedLT_pysort X ?_
        exact foldlM_inv (list_modulesOne reg) List.Nodup
          (fun d x d2 hd hnd => list_modulesOne_nodup reg d x d2 hd hnd)
          (q :: qs) [] X hfold (by simp)
  refine ⟨hlf, ?_, ?_, ?_, hlm, ?_, ?_, ?_, ?_⟩
  · rw [list_state_functions_eq]
    exact hlf
  · rw [list_runner_functions_eq]
    exact hlf
  · intro args
    cases args with
    | nil => exact sortedLT_pysort _ h
    | cons q qs =>
      refine sortedLT_pysort _ ?_
      exact nodup_foldl (list_returner_functionsOne reg)
        (fun s x hs => list_returner_functionsOne_nodup reg s x hs) (q :: qs) [] (by simp)
  · rw [list_state_modules_eq]
    exact hlm
  · rw [list_runners_eq]
    exact hlm
  · rw [list_returners_eq]
    exact hlm
  · intro args out hout
    cases args with
    | nil =>
      have hunfold : list_renderers reg []
          = some (pysort ((keys reg).foldl setAdd [])) := rfl
      rw [hunfold] at hout
      injection hout with hF
      rw [← hF]
      refine sortedLT_pysort _ ?_
      exact nodup_foldl setAdd nodup_setAdd (keys reg) [] (by simp)
    | cons q qs =>
      have hunfold : list_renderers reg (q :: qs)
          = ((q :: qs).foldlM (list_renderersOne reg) []).map pysort := rfl
      rw [hunfold] at hout
      cases hfold : (q :: qs).foldlM (list_renderersOne reg) [] with
      | none =>
        rw [hfold] at hout
        cases hout
      | some X =>
        rw [hfold] at hout
        injection hout with hF
        rw [← hF]
        refine sortedLT_pysort X ?_
        exact foldlM_inv (list_renderersOne reg) List.Nodup
          (fun d x d2 hd hnd => list_renderersOne_nodup reg d x d2 hd hnd)
          (q :: qs) [] X hfold (by simp)

/-- Claim C6 witness: the list_functions conjunct on a two-entry registry
queried with no patterns; the keys arrive unsorted and the output is the
strictly ascending list. -/
theorem c6_witness :
    (["a.y", "b.x"] : List String).Sorted (· < ·) :=
  (c6_sorted_dedup [("b.x", ⟨some "d", none⟩), ("a.y", ⟨some "d", none⟩)]
    (by decide)).1 [] ["a.y", "b.x"] (by decide)

/-- Claim C9 counterexample: a malformed glob pattern (inverted character
range `[z-a]*`, rejected by the regular-expression compiler) does not leave
the other patterns' results intact: the whole `doc` call fails and returns
nothing, although the first pattern `a` alone would have selected `a.f`. -/
theorem c9_counterexample :
    doc [("a.f", ⟨some "d", none⟩)] ["a", "[z-a]*"] = none := by
  decide

/-- Claim C9 (amended): a pattern whose glob translation fails (bad
character range) makes the whole call fail with the pattern error: every
query that feeds the pattern to fnmatch returns nothing at all — no partial
results for any pattern of the call. (For the doc/list-functions families
the glob path requires a `*` in the pattern; the list-modules family globs
every pattern. `returner_doc` and `list_returner_functions` never call
fnmatch and cannot fail.) -/
theorem c9_malformed_aborts (reg : Registry) (args : List String) (p : String)
    (hp : p ∈ args) (h1 : containsStar p = true) (hbad : translate p = none) :
    doc reg args = none
    ∧ state_doc reg args = none
    ∧ runner_doc reg args = none
    ∧ renderer_doc reg args = none
    ∧ list_functions reg args = none
    ∧ list_state_functions reg args = none
    ∧ list_runner_functions reg args = none
    ∧ list_modules reg args = none
    ∧ list_state_modules reg args = none
    ∧ list_runners reg args = none
    ∧ list_returners reg args = none
    ∧ list_renderers reg args = none := by
  have hne : ¬ args.isEmpty = true := by
    cases args with
    | nil => cases hp
    | cons q qs => simp
  have hdocOne : ∀ d, docOne reg d p = none := by
    intro d
    rw [docOne, if_pos h1, hbad]
  have hstateOne : ∀ d, state_docOne reg d p = none := by
    intro d
    rw [state_docOne, if_pos h1, hbad]
  have hrendOne : ∀ d, renderer_docOne reg d p = none := by
    intro d
    rw [renderer_docOne, if_pos h1, hbad]
  have hlfOne : ∀ d, list_functionsOne reg d p = none := by
    intro d
    rw [list_functionsOne, if_pos h1, hbad]
  have hlmOne : ∀ d, list_modulesOne reg d p = none := by
    intro d
    rw [list_modulesOne, hbad]
  have hlrOne : ∀ d, list_renderersOne reg d p = none := by
    intro d
    rw [list_renderersOne, hbad]
  have hdoc : doc reg args = none := by
    rw [doc, if_neg hne, foldlM_none (docOne reg) p hdocOne args [] hp]
    rfl
  have hlfn : list_functions reg args = none := by
    rw [list_functions, if_neg hne,
      foldlM_none (list_functionsOne reg) p hlfOne args [] hp]
    rfl
  have hlmn : list_modules reg args = none := by
    rw [list_modules, if_neg hne,
      foldlM_none (list_modulesOne reg) p hlmOne args [] hp]
    rfl
  refine ⟨hdoc, ?_, ?_, ?_, hlfn, ?_, ?_, hlmn, ?_, ?_, ?_, ?_⟩
  · rw [state_doc, if_neg hne,
      foldlM_none (state_docOne reg) p hstateOne args [] hp]
    rfl
  · rw [runner_doc_eq_doc]
    exact hdoc
  · rw [renderer_doc, if_neg hne,
      foldlM_none (renderer_docOne reg) p hrendOne args [] hp]
    rfl
  · rw [list_state_functions_eq]
    exact hlfn
  · rw [list_runner_functions_eq]
    exact hlfn
  · rw [list_state_modules_eq]
    exact hlmn
  · rw [list_runners_eq]
    exact hlmn
  · rw [list_returners_eq]
    exact hlmn
  · rw [list_renderers, if_neg hne,
      foldlM_none (list_renderersOne reg) p hlrOne args [] hp]
    rfl

/-- Claim C9 witness: the doc conjunct at a concrete malformed pattern. -/
theorem c9_witness :
    doc [("a.f", ⟨some "d", none⟩)] ["x*[b-a]"] = none :=
  (c9_malformed_aborts [("a.f", ⟨some "d", none⟩)] ["x*[b-a]"] "x*[b-a]"
    (by decide) (by decide) (by decide)).1

end Sysmod
